import Mathlib

/-!
# Verification of `astro-nocodb` (src/packages/astro-nocodb/loaders.ts)

A shallow embedding of the loader package's two components:

* `fetchAll` — the recursive paginated fetcher (loaders.ts lines 83–145).
  Network I/O is modelled by a *script*: a list of `Response` values, one
  consumed per HTTP request.  Each call of the JS function performs exactly
  one `axios.get`, so the recursion is structural on the script.  Besides the
  accumulated records the embedding returns the trace of delays passed to the
  wait primitive (`setTimeout`) and the trace of issued requests (offset,
  remaining retry budget, current delay), so that timing/backoff claims are
  about the values handed to the primitives, not wall-clock time.
  NOTE: the `throw new Error('Exceeded retry limit …')` at line 116 is inside
  the same `try` block, so it is caught by the `catch` at line 130; the
  caught error has no `.response` field, hence falls into the final `else`
  branch which logs and returns the accumulated `results`.  The embedding
  reflects that net behaviour (return accumulated records, no exception).

* `makeLoader`'s per-record ingestion (loaders.ts lines 65–78): mapping,
  id derivation via JavaScript `||` (truthiness), schema parsing modelled as
  an opaque pure function, body-field promotion, and the id-keyed `store.set`
  upsert.

JavaScript truthiness, absent-vs-null fields and `String(·)` coercion are
modelled explicitly by the `JVal` type.
-/

/-- A JavaScript-ish scalar value, enough to model record fields:
`undefined` (absent), `null`, booleans, integers and strings. -/
inductive JVal where
  | jundefined : JVal
  | jnull : JVal
  | jbool : Bool → JVal
  | jnum : Int → JVal
  | jstr : String → JVal
deriving DecidableEq, Repr

/-- JavaScript truthiness of a `JVal` (`NaN` is out of scope of the model). -/
def JVal.truthy : JVal → Bool
  | .jundefined => false
  | .jnull => false
  | .jbool b => b
  | .jnum n => n ≠ 0
  | .jstr s => s ≠ ""

/-- JavaScript `String(v)` coercion. -/
def JVal.jsString : JVal → String
  | .jundefined => "undefined"
  | .jnull => "null"
  | .jbool b => if b then "true" else "false"
  | .jnum n => toString n
  | .jstr s => s

/-- JavaScript `a || b`: `a` when truthy, otherwise `b`. -/
def JVal.jsOr (a b : JVal) : JVal := if a.truthy then a else b

/-- One server response as seen by one `axios.get` call: either a resolved
response carrying a status, an optional `list` of records and the optional
`pageInfo.isLastPage` flag, or a rejected promise (thrown error) carrying
`error.response?.status` when present. -/
inductive Response (α : Type) where
  | ok : Nat → Option (List α) → Option Bool → Response α
  | err : Option Nat → Response α
deriving DecidableEq, Repr

/-- One issued HTTP request of a `fetchAll` run: the `offset` query parameter
sent, and the retry budget and backoff delay the call was invoked with. -/
structure Req where
  offset : Nat
  retries : Nat
  delay : Nat
deriving DecidableEq, Repr

/-- The observable outcome of a `fetchAll` run: the returned record list, the
trace of delays passed to the wait primitive, and the trace of requests. -/
structure FetchResult (α : Type) where
  records : List α
  waits : List Nat
  reqs : List Req
deriving DecidableEq, Repr

/-- `queryParams.limit || 100` (loaders.ts line 94): the effective page limit;
a missing or falsy (`0`) limit defaults to 100. -/
def jsLimit : Option Nat → Nat
  | none => 100
  | some l => if l = 0 then 100 else l

/-- Shallow embedding of `fetchAll` (loaders.ts lines 83–145), recursion made
structural on the response script.  Each call issues one request at `offset`
(recorded in `reqs`), then:

* resolved status 429 with budget left → wait `delay` (recorded), retry the
  same offset with `retries - 1` and `delay * 2` (lines 110–114);
* resolved status 429 with budget exhausted → the thrown error is caught by
  the function's own `catch` and, having no `.response`, returns the
  accumulated `results` (lines 116, 130, 140–143);
* any other resolved response → append `data.list || []`, then recurse at
  `offset + (queryParams.limit || 100)` with the *current* budget and delay
  unless `pageInfo.isLastPage` is truthy (lines 120–129);
* thrown error with `error.response.status === 429` → same retry/exhaustion
  behaviour as the resolved 429 (lines 131–139);
* any other thrown error → log and return accumulated results (lines 140–143).

An exhausted script means no further response ever arrives; the run is cut
there with the records accumulated so far (no request is recorded for it). -/
def fetchAll {α : Type} (limitParam : Option Nat) :
    List (Response α) → Nat → List α → Nat → Nat → FetchResult α
  | [], _, results, _, _ => ⟨results, [], []⟩
  | r :: rest, offset, results, retries, delay =>
    let limit := jsLimit limitParam
    match r with
    | .ok status list isLastPage =>
      if status = 429 then
        if retries > 0 then
          let out := fetchAll limitParam rest offset results (retries - 1) (delay * 2)
          ⟨out.records, delay :: out.waits, ⟨offset, retries, delay⟩ :: out.reqs⟩
        else
          ⟨results, [], [⟨offset, retries, delay⟩]⟩
      else
        let results' := results ++ list.getD []
        if isLastPage = some true then
          ⟨results', [], [⟨offset, retries, delay⟩]⟩
        else
          let out := fetchAll limitParam rest (offset + limit) results' retries delay
          ⟨out.records, out.waits, ⟨offset, retries, delay⟩ :: out.reqs⟩
    | .err respStatus =>
      if respStatus = some 429 then
        if retries > 0 then
          let out := fetchAll limitParam rest offset results (retries - 1) (delay * 2)
          ⟨out.records, delay :: out.waits, ⟨offset, retries, delay⟩ :: out.reqs⟩
        else
          ⟨results, [], [⟨offset, retries, delay⟩]⟩
      else
        ⟨results, [], [⟨offset, retries, delay⟩]⟩

/-- The script of a clean pagination run: every page arrives as a resolved
200 response, each reporting `isLastPage = false` except the final one. -/
def pagesScript {α : Type} : List (List α) → List (Response α)
  | [] => []
  | [p] => [.ok 200 (some p) (some true)]
  | p :: q :: ps => .ok 200 (some p) (some false) :: pagesScript (q :: ps)

/-- The script of a pagination run whose pages all succeed and all report
`isLastPage = false` (a run that is cut short by a later failure). -/
def nonLastScript {α : Type} : List (List α) → List (Response α)
  | [] => []
  | p :: ps => .ok 200 (some p) (some false) :: nonLastScript ps

/-- A JavaScript object (raw or mapped record): an association list of
field name to value; lookup is first-match. -/
abbrev JRecord := List (String × JVal)

/-- Property access `r[k]`: the field's value, `undefined` when absent. -/
def getField (r : JRecord) (k : String) : JVal :=
  match r.find? (fun p => p.1 = k) with
  | some p => p.2
  | none => .jundefined

/-- `delete r[k]` (loaders.ts line 74): the record without key `k`. -/
def removeField (r : JRecord) (k : String) : JRecord :=
  r.filter (fun p => ¬ p.1 = k)

/-- `mapper ? mapper(rawItem) : rawItem` (loaders.ts line 68). -/
def applyMapper (mapper : Option (JRecord → JRecord)) (r : JRecord) : JRecord :=
  match mapper with
  | some f => f r
  | none => r

/-- `String(mappedItem.Id || mappedItem.id || 'unknown')` (loaders.ts
line 69): JavaScript `||` picks the first *truthy* operand. -/
def deriveId (m : JRecord) : String :=
  (((getField m "Id").jsOr (getField m "id")).jsOr (.jstr "unknown")).jsString

/-- The unit persisted to the store: `{ id, data, body? }`. -/
structure Entry where
  id : String
  data : JRecord
  body : Option JVal
deriving DecidableEq, Repr

/-- One record's trip through the loader body (loaders.ts lines 67–77):
apply the optional mapper, derive the id, parse (the schema engine
`parseData` is an opaque pure function of the mapped record), and promote
the body field when its parsed value is truthy — the value moves to the
entry's `body` slot and the key is deleted from the parsed data. -/
def processRecord (mapper : Option (JRecord → JRecord))
    (parseData : JRecord → JRecord) (bodyField : String) (rawItem : JRecord) :
    Entry :=
  let mappedItem := applyMapper mapper rawItem
  let id := deriveId mappedItem
  let parsed := parseData mappedItem
  if (getField parsed bodyField).truthy then
    ⟨id, removeField parsed bodyField, some (getField parsed bodyField)⟩
  else
    ⟨id, parsed, none⟩

/-- The destination store: entries keyed by id. -/
abbrev Store := String → Option Entry

/-- `store.set(storeEntry)` (loaders.ts line 76): id-keyed upsert. -/
def storeSet (s : Store) (e : Entry) : Store :=
  fun k => if k = e.id then some e else s k

/-- Writing a batch of entries to the store, one `store.set` per entry in
order. -/
def applyEntries (es : List Entry) (s : Store) : Store :=
  es.foldl storeSet s

/-- The loader's `load` over an already-fetched record list (loaders.ts
lines 65–78): process each raw record and upsert it into the store, in
order. -/
def loadStore (mapper : Option (JRecord → JRecord))
    (parseData : JRecord → JRecord) (bodyField : String)
    (items : List JRecord) (store : Store) : Store :=
  applyEntries (items.map (processRecord mapper parseData bodyField)) store

/-- The last entry of a batch carrying a given id, if any: the one whose
value survives in the store after the batch is applied. -/
def lookupLast : List Entry → String → Option Entry
  | [], _ => none
  | e :: es, k =>
    match lookupLast es k with
    | some e' => some e'
    | none => if e.id = k then some e else none

/-- A table's optional configuration knobs as supplied by the caller of
`nocodbCollections` (loaders.ts lines 12–21): each may be absent. -/
structure TableOptions where
  bodyField : Option String
  fields : Option (List String)
  retries : Option Nat
  delay : Option Nat
deriving DecidableEq, Repr

/-- The effective per-table loader parameters after `nocodbCollections`'s
destructuring defaults `bodyField = 'content', fields = [], retries = 10,
delay = 2000` (loaders.ts line 31). -/
structure LoaderParams where
  bodyField : String
  fields : List String
  retries : Nat
  delay : Nat
deriving DecidableEq, Repr

/-- `nocodbCollections`'s resolution of a table's options to the loader
parameters (loaders.ts line 31): a destructuring default applies exactly
when the property is absent. -/
def nocodbTableDefaults (t : TableOptions) : LoaderParams :=
  ⟨t.bodyField.getD "content", t.fields.getD [], t.retries.getD 10,
    t.delay.getD 2000⟩

theorem fetchAll_pagesScript_records {α : Type} (lp : Option Nat)
    (pages : List (List α)) (off : Nat) (acc : List α) (r d : Nat) :
    (fetchAll lp (pagesScript pages) off acc r d).records = acc ++ pages.flatten := by
  induction pages generalizing off acc with
  | nil => simp [pagesScript, fetchAll]
  | cons p ps ih =>
    cases ps with
    | nil => simp [pagesScript, fetchAll]
    | cons q ps' =>
      simp only [pagesScript, fetchAll]
      rw [ih]
      simp

/-- C1: for a script of successful pages in which every response reports
`isLastPage = false` except the final one, `fetchAll` returns the
concatenation of all pages' record lists in page order. -/
theorem fetchAll_pages_concat {α : Type} (lp : Option Nat)
    (pages : List (List α)) (r d : Nat) :
    (fetchAll lp (pagesScript pages) 0 [] r d).records = pages.flatten := by
  simpa using fetchAll_pagesScript_records lp pages 0 [] r d

theorem fetchAll_pagesScript_offsets {α : Type} (lp : Option Nat)
    (pages : List (List α)) (off : Nat) (acc : List α) (r d : Nat) :
    (fetchAll lp (pagesScript pages) off acc r d).reqs.map Req.offset
      = (List.range pages.length).map (fun i => off + i * jsLimit lp) := by
  induction pages generalizing off acc with
  | nil => simp [pagesScript, fetchAll]
  | cons p ps ih =>
    cases ps with
    | nil => simp [pagesScript, fetchAll, List.range_succ]
    | cons q ps' =>
      simp only [pagesScript, fetchAll]
      norm_num
      rw [ih]
      rw [List.range_succ_eq_map, List.map_cons, List.map_map]
      simp only [List.length_cons]
      congr 1
      · norm_num
      · apply List.map_congr_left
        intro i _
        simp [Function.comp]
        ring

/-- C2 counterexample: with the default limit (100), a first page of 3
records that is not the last is followed by a request at offset 100, not at
offset 3 (the sum of prior pages' record counts), so the offset sent for
page 2 is a fixed multiple of the limit, not the running record count. -/
theorem fetchAll_offset_counterexample :
    (fetchAll (α := Nat) none (pagesScript [[1, 2, 3], [4]]) 0 [] 10 2000).reqs.map
        Req.offset = [0, 100]
    ∧ ([1, 2, 3] : List Nat).length = 3 ∧ (100 : Nat) ≠ 3 := by decide

/-- C2 amended: the `offset` query parameter sent when requesting page `k`
equals `(k-1) * limit` where `limit` is `queryParams.limit || 100` — a fixed
multiple of the page limit, regardless of how many records earlier pages
actually returned. -/
theorem fetchAll_offsets_fixed_multiples {α : Type} (lp : Option Nat)
    (pages : List (List α)) (r d : Nat) :
    (fetchAll lp (pagesScript pages) 0 [] r d).reqs.map Req.offset
      = (List.range pages.length).map (fun i => i * jsLimit lp) := by
  simpa using fetchAll_pagesScript_offsets lp pages 0 [] r d

/-- C3 counterexample: with budget 10 and base delay 2000, a single 429 on
page 1 followed by a successful non-last page leads to the next page being
requested with budget 9 and delay 4000 — the original budget (10) is *not*
restored for the next page. -/
theorem fetchAll_budget_counterexample :
    (fetchAll (α := Nat) none
        [.ok 429 none none, .ok 200 (some [7]) (some false),
         .ok 200 (some [8]) (some true)] 0 [] 10 2000).reqs
      = [⟨0, 10, 2000⟩, ⟨0, 9, 4000⟩, ⟨100, 9, 4000⟩]
    ∧ (9 : Nat) ≠ 10 := by decide

/-- C3 amended: the retry budget is cumulative across the whole paginated
fetch, not per-page: after `j ≤ r` consecutive 429s on page 1 followed by a
successful non-last page, the next page is requested with the *decremented*
budget `r - j` and the *doubled* delay `d * 2 ^ j` carried over, not with the
original budget restored. -/
theorem fetchAll_budget_cumulative {α : Type} (lp : Option Nat) (j r d : Nat)
    (h : j ≤ r) (p q : List α) :
    (fetchAll lp
        (List.replicate j (.ok 429 none none)
          ++ [.ok 200 (some p) (some false), .ok 200 (some q) (some true)])
        0 [] r d).reqs
      = (List.range j).map (fun i => ⟨0, r - i, d * 2 ^ i⟩)
        ++ [⟨0, r - j, d * 2 ^ j⟩, ⟨jsLimit lp, r - j, d * 2 ^ j⟩] := by
  induction j generalizing r d with
  | zero => simp [fetchAll]
  | succ j ih =>
    have hr : 0 < r := Nat.lt_of_lt_of_le (Nat.succ_pos j) h
    have h' : j ≤ r - 1 := by omega
    simp only [List.replicate_succ, List.cons_append, fetchAll]
    simp only [if_true, List.append_eq]
    rw [if_pos hr]
    rw [ih (r - 1) (d * 2) h']
    rw [List.range_succ_eq_map, List.map_cons, List.map_map]
    simp only [List.cons_append]
    have e1 : r - 1 - j = r - (j + 1) := by omega
    have e2 : d * 2 * 2 ^ j = d * 2 ^ (j + 1) := by ring
    rw [e1, e2]
    congr 1
    · norm_num
    congr 1
    apply List.map_congr_left
    intro i _
    simp only [Function.comp]
    have e3 : r - 1 - i = r - (i + 1) := by omega
    have e4 : d * 2 * 2 ^ i = d * 2 ^ (i + 1) := by ring
    rw [e3, e4]

/-- Witness for `fetchAll_budget_cumulative` at `j = 1`, `r = 10`,
`d = 2000`. -/
theorem fetchAll_budget_cumulative_witness :
    (1 : Nat) ≤ 10
    ∧ (fetchAll (α := Nat) none
        (List.replicate 1 (.ok 429 none none)
          ++ [.ok 200 (some [7]) (some false), .ok 200 (some [8]) (some true)])
        0 [] 10 2000).reqs
      = (List.range 1).map (fun i => ⟨0, 10 - i, 2000 * 2 ^ i⟩)
        ++ [⟨0, 10 - 1, 2000 * 2 ^ 1⟩, ⟨jsLimit none, 10 - 1, 2000 * 2 ^ 1⟩] :=
  ⟨by decide, fetchAll_budget_cumulative none 1 10 2000 (by decide) [7] [8]⟩

theorem fetchAll_cons_429_succ {α : Type} (lp : Option Nat)
    (s : List (Response α)) (off : Nat) (acc : List α) (n d : Nat) :
    fetchAll lp (.ok 429 none none :: s) off acc (n + 1) d
      = ⟨(fetchAll lp s off acc n (d * 2)).records,
          d :: (fetchAll lp s off acc n (d * 2)).waits,
          ⟨off, n + 1, d⟩ :: (fetchAll lp s off acc n (d * 2)).reqs⟩ := by
  simp [fetchAll]

theorem fetchAll_cons_err429_succ {α : Type} (lp : Option Nat)
    (s : List (Response α)) (off : Nat) (acc : List α) (n d : Nat) :
    fetchAll lp (.err (some 429) :: s) off acc (n + 1) d
      = ⟨(fetchAll lp s off acc n (d * 2)).records,
          d :: (fetchAll lp s off acc n (d * 2)).waits,
          ⟨off, n + 1, d⟩ :: (fetchAll lp s off acc n (d * 2)).reqs⟩ := by
  simp [fetchAll]

theorem fetchAll_cons_page_notLast {α : Type} (lp : Option Nat)
    (p : List α) (s : List (Response α)) (off : Nat) (acc : List α)
    (r d : Nat) :
    fetchAll lp (.ok 200 (some p) (some false) :: s) off acc r d
      = ⟨(fetchAll lp s (off + jsLimit lp) (acc ++ p) r d).records,
          (fetchAll lp s (off + jsLimit lp) (acc ++ p) r d).waits,
          ⟨off, r, d⟩ :: (fetchAll lp s (off + jsLimit lp) (acc ++ p) r d).reqs⟩ := by
  simp [fetchAll]

theorem fetchAll_nonLast_append {α : Type} (lp : Option Nat)
    (pages : List (List α)) (tail : List (Response α)) (off : Nat)
    (acc : List α) (r d : Nat) :
    (fetchAll lp (nonLastScript pages ++ tail) off acc r d).records
      = (fetchAll lp tail (off + pages.length * jsLimit lp)
          (acc ++ pages.flatten) r d).records := by
  induction pages generalizing off acc with
  | nil => simp [nonLastScript]
  | cons p ps ih =>
    rw [nonLastScript, List.cons_append, fetchAll_cons_page_notLast]
    show (fetchAll lp (nonLastScript ps ++ tail) (off + jsLimit lp)
        (acc ++ p) r d).records = _
    rw [ih]
    have e : off + jsLimit lp + ps.length * jsLimit lp
        = off + (ps.length + 1) * jsLimit lp := by ring
    rw [e, List.append_assoc]
    simp

theorem fetchAll_exhaust_status {α : Type} (lp : Option Nat) (r : Nat)
    (rest : List (Response α)) (off : Nat) (acc : List α) (d : Nat) :
    (fetchAll lp (List.replicate (r + 1) (.ok 429 none none) ++ rest)
        off acc r d).records = acc := by
  induction r generalizing d with
  | zero => rfl
  | succ r ih =>
    rw [List.replicate_succ, List.cons_append, fetchAll_cons_429_succ]
    exact ih (d * 2)

theorem fetchAll_exhaust_thrown {α : Type} (lp : Option Nat) (r : Nat)
    (rest : List (Response α)) (off : Nat) (acc : List α) (d : Nat) :
    (fetchAll lp (List.replicate (r + 1) (.err (some 429)) ++ rest)
        off acc r d).records = acc := by
  induction r generalizing d with
  | zero => rfl
  | succ r ih =>
    rw [List.replicate_succ, List.cons_append, fetchAll_cons_err429_succ]
    exact ih (d * 2)

theorem fetchAll_transport_error {α : Type} (lp : Option Nat)
    (rest : List (Response α)) (off : Nat) (acc : List α) (r d : Nat) :
    (fetchAll lp (.err none :: rest) off acc r d).records = acc := by
  simp [fetchAll]

/-- C4: when a run of successful non-last pages hits an unrecoverable
error — the retry budget (`r`) exhausted by `r + 1` consecutive 429s,
arriving either as a response status or as a thrown transport error, or any
non-429 transport failure — `fetchAll` returns exactly the records of the
pages fetched before the error (nothing is thrown: every branch of the code
returns, since even the budget-exhausted `throw` is caught by the function's
own `catch`), and no records outside the fetched pages appear. -/
theorem fetchAll_partial_on_failure {α : Type} (lp : Option Nat)
    (pages : List (List α)) (rest : List (Response α)) (r d : Nat) :
    (fetchAll lp (nonLastScript pages
        ++ (List.replicate (r + 1) (.ok 429 none none) ++ rest))
        0 [] r d).records = pages.flatten
    ∧ (fetchAll lp (nonLastScript pages
        ++ (List.replicate (r + 1) (.err (some 429)) ++ rest))
        0 [] r d).records = pages.flatten
    ∧ (fetchAll lp (nonLastScript pages ++ (.err none :: rest))
        0 [] r d).records = pages.flatten := by
  refine ⟨?_, ?_, ?_⟩ <;> rw [fetchAll_nonLast_append] <;>
    simp [fetchAll_exhaust_status, fetchAll_exhaust_thrown,
      fetchAll_transport_error]

theorem fetchAll_cons_ok429 {α : Type} (lp : Option Nat)
    (list : Option (List α)) (isLast : Option Bool)
    (s : List (Response α)) (off : Nat) (acc : List α) (n d : Nat) :
    fetchAll lp (.ok 429 list isLast :: s) off acc (n + 1) d
      = ⟨(fetchAll lp s off acc n (d * 2)).records,
          d :: (fetchAll lp s off acc n (d * 2)).waits,
          ⟨off, n + 1, d⟩ :: (fetchAll lp s off acc n (d * 2)).reqs⟩ := by
  simp [fetchAll]

theorem fetchAll_cons_ok429_zero {α : Type} (lp : Option Nat)
    (list : Option (List α)) (isLast : Option Bool)
    (s : List (Response α)) (off : Nat) (acc : List α) (d : Nat) :
    fetchAll lp (.ok 429 list isLast :: s) off acc 0 d
      = ⟨acc, [], [⟨off, 0, d⟩]⟩ := by
  simp [fetchAll]

theorem fetchAll_cons_err429_zero {α : Type} (lp : Option Nat)
    (s : List (Response α)) (off : Nat) (acc : List α) (d : Nat) :
    fetchAll lp (.err (some 429) :: s) off acc 0 d
      = ⟨acc, [], [⟨off, 0, d⟩]⟩ := by
  simp [fetchAll]

theorem fetchAll_cons_ok_notLast {α : Type} (lp : Option Nat)
    (status : Nat) (list : Option (List α)) (isLast : Option Bool)
    (s : List (Response α)) (off : Nat) (acc : List α) (r d : Nat)
    (h : ¬ status = 429) (hl : ¬ isLast = some true) :
    fetchAll lp (.ok status list isLast :: s) off acc r d
      = ⟨(fetchAll lp s (off + jsLimit lp) (acc ++ list.getD []) r d).records,
          (fetchAll lp s (off + jsLimit lp) (acc ++ list.getD []) r d).waits,
          ⟨off, r, d⟩
            :: (fetchAll lp s (off + jsLimit lp) (acc ++ list.getD []) r d).reqs⟩ := by
  simp [fetchAll, h, hl]

theorem fetchAll_cons_ok_last {α : Type} (lp : Option Nat)
    (status : Nat) (list : Option (List α))
    (s : List (Response α)) (off : Nat) (acc : List α) (r d : Nat)
    (h : ¬ status = 429) :
    fetchAll lp (.ok status list (some true) :: s) off acc r d
      = ⟨acc ++ list.getD [], [], [⟨off, r, d⟩]⟩ := by
  simp [fetchAll, h]

theorem fetchAll_cons_err_other {α : Type} (lp : Option Nat)
    (rs : Option Nat) (s : List (Response α)) (off : Nat) (acc : List α)
    (r d : Nat) (h : ¬ rs = some 429) :
    fetchAll lp (.err rs :: s) off acc r d = ⟨acc, [], [⟨off, r, d⟩]⟩ := by
  simp [fetchAll, h]

theorem geom_cons (d n : Nat) :
    d :: (List.range n).map (fun i => d * 2 * 2 ^ i)
      = (List.range (n + 1)).map (fun i => d * 2 ^ i) := by
  rw [List.range_succ_eq_map, List.map_cons, List.map_map]
  congr 1
  · norm_num
  · apply List.map_congr_left
    intro i _
    simp [Function.comp]
    ring

/-- C5: in every run of `fetchAll` started with base delay `d`, the `i`-th
value passed to the wait primitive (0-based) is exactly `d * 2 ^ i`: the
first wait equals the configured base delay and each subsequent consecutive
429 doubles the delay passed to the wait primitive, monotonically
increasing.  (The delay is doubled at each wait and never reset, so this
holds across the whole run, in particular for consecutive 429s on one
page.) -/
theorem fetchAll_waits_geometric {α : Type} (lp : Option Nat)
    (script : List (Response α)) (off : Nat) (acc : List α) (r d : Nat) :
    (fetchAll lp script off acc r d).waits
      = (List.range (fetchAll lp script off acc r d).waits.length).map
          (fun i => d * 2 ^ i) := by
  induction script generalizing off acc r d with
  | nil => simp [fetchAll]
  | cons resp rest ih =>
    cases resp with
    | ok status list isLast =>
      by_cases h429 : status = 429
      · subst h429
        cases r with
        | zero => simp [fetchAll_cons_ok429_zero]
        | succ n =>
          rw [fetchAll_cons_ok429]
          show d :: (fetchAll lp rest off acc n (d * 2)).waits = _
          rw [ih, geom_cons]
          simp
      · by_cases hl : isLast = some true
        · subst hl
          simp [fetchAll_cons_ok_last lp status list rest off acc r d h429]
        · rw [fetchAll_cons_ok_notLast lp status list isLast rest off acc r d h429 hl]
          show (fetchAll lp rest (off + jsLimit lp) (acc ++ list.getD []) r d).waits = _
          conv_lhs => rw [ih]
    | err rs =>
      by_cases h429 : rs = some 429
      · subst h429
        cases r with
        | zero => simp [fetchAll_cons_err429_zero]
        | succ n =>
          rw [fetchAll_cons_err429_succ]
          show d :: (fetchAll lp rest off acc n (d * 2)).waits = _
          rw [ih, geom_cons]
          simp
      · simp [fetchAll_cons_err_other lp rs rest off acc r d h429]

theorem applyEntries_lookup (es : List Entry) (s : Store) (k : String) :
    applyEntries es s k
      = match lookupLast es k with
        | some e => some e
        | none => s k := by
  induction es generalizing s with
  | nil => simp [applyEntries, lookupLast]
  | cons e es ih =>
    show applyEntries es (storeSet s e) k = _
    rw [ih]
    cases h : lookupLast es k with
    | some e' => simp [lookupLast, h]
    | none =>
      simp only [lookupLast, h, storeSet]
      by_cases hk : e.id = k
      · simp [hk]
      · rw [if_neg (fun hh => hk hh.symm), if_neg hk]

/-- C6: ingestion is idempotent — running the loader's per-record
upsert loop twice over the same record list against the same store yields
the same final store contents as running it once, because each record is
written via an id-keyed upsert (`store.set`), so the second pass rewrites
exactly the entries the first pass already wrote. -/
theorem loadStore_idempotent (mapper : Option (JRecord → JRecord))
    (parseData : JRecord → JRecord) (bf : String)
    (items : List JRecord) (store : Store) :
    loadStore mapper parseData bf items
        (loadStore mapper parseData bf items store)
      = loadStore mapper parseData bf items store := by
  funext k
  show applyEntries _ (applyEntries _ store) k = applyEntries _ store k
  rw [applyEntries_lookup, applyEntries_lookup]
  cases h : lookupLast (items.map (processRecord mapper parseData bf)) k with
  | some e => simp
  | none => simp [applyEntries_lookup, h]

theorem getField_cons (hd : String × JVal) (tl : JRecord) (k : String) :
    getField (hd :: tl) k = if hd.1 = k then hd.2 else getField tl k := by
  by_cases hp : hd.1 = k <;> simp [getField, List.find?_cons, hp]

theorem getField_removeField (p : JRecord) (b k : String) :
    getField (removeField p b) k
      = if k = b then .jundefined else getField p k := by
  induction p with
  | nil => simp [removeField, getField]
  | cons hd tl ih =>
    by_cases hb : hd.1 = b
    · rw [show removeField (hd :: tl) b = removeField tl b from by
        simp [removeField, List.filter_cons, hb]]
      rw [ih, getField_cons]
      by_cases hk : k = b
      · simp [hk]
      · simp [hk, show ¬ hd.1 = k from fun hh => hk (by rw [← hh, hb])]
    · rw [show removeField (hd :: tl) b = hd :: removeField tl b from by
        simp [removeField, List.filter_cons, hb]]
      rw [getField_cons, getField_cons]
      by_cases hh : hd.1 = k
      · have hk : ¬ k = b := fun e => hb (by rw [hh, e])
        simp [hh, hk]
      · rw [if_neg hh, if_neg hh, ih]

theorem processRecord_eq_of_truthy (mapper : Option (JRecord → JRecord))
    (parseData : JRecord → JRecord) (bf : String) (rawItem : JRecord)
    (h : (getField (parseData (applyMapper mapper rawItem)) bf).truthy = true) :
    processRecord mapper parseData bf rawItem
      = ⟨deriveId (applyMapper mapper rawItem),
          removeField (parseData (applyMapper mapper rawItem)) bf,
          some (getField (parseData (applyMapper mapper rawItem)) bf)⟩ := by
  simp [processRecord, h]

/-- C7 counterexample: a record whose `Id` field is present and non-null but
falsy (the number 0) is ingested under `"unknown"`, not under `String(Id)
= "0"`, because JavaScript `||` tests truthiness, not presence/non-null. -/
theorem deriveId_nonnull_counterexample :
    deriveId [("Id", JVal.jnum 0)] = "unknown"
    ∧ (JVal.jnum 0).jsString = "0"
    ∧ deriveId [("Id", JVal.jnum 0)] ≠ (JVal.jnum 0).jsString := by
  refine ⟨by decide, by decide, by decide⟩

/-- C7 amended: the entry id equals the stringified `Id` field when that
field is present and *truthy*; otherwise the stringified `id` field when
that is truthy; otherwise the literal `"unknown"` (absent fields read as
`undefined`, which is falsy, so a record missing both fields gets
`"unknown"`). -/
theorem deriveId_truthy (m : JRecord) :
    ((getField m "Id").truthy = true →
        deriveId m = (getField m "Id").jsString)
    ∧ ((getField m "Id").truthy = false → (getField m "id").truthy = true →
        deriveId m = (getField m "id").jsString)
    ∧ ((getField m "Id").truthy = false → (getField m "id").truthy = false →
        deriveId m = "unknown") := by
  refine ⟨fun h => ?_, fun h h2 => ?_, fun h h2 => ?_⟩
  · simp [deriveId, JVal.jsOr, h]
  · simp [deriveId, JVal.jsOr, h, h2]
  · simp [deriveId, JVal.jsOr, h, h2, JVal.jsString]

/-- Witness for `deriveId_truthy` at the record `{Id: "5"}`. -/
theorem deriveId_truthy_witness :
    (getField [("Id", JVal.jstr "5")] "Id").truthy = true
    ∧ deriveId [("Id", JVal.jstr "5")]
        = (getField [("Id", JVal.jstr "5")] "Id").jsString :=
  ⟨by decide, (deriveId_truthy [("Id", JVal.jstr "5")]).1 (by decide)⟩

/-- C8: for a table with body field `bf` and a record whose parsed
(validated) data has a truthy value at `bf`, the emitted entry carries that
value in its `body` slot, the key is removed from its `data`
(`getField` on it yields `undefined`), and every other field of `data` is
unchanged. -/
theorem processRecord_body_promotion (mapper : Option (JRecord → JRecord))
    (parseData : JRecord → JRecord) (bf : String) (rawItem : JRecord)
    (h : (getField (parseData (applyMapper mapper rawItem)) bf).truthy = true) :
    processRecord mapper parseData bf rawItem
      = ⟨deriveId (applyMapper mapper rawItem),
          removeField (parseData (applyMapper mapper rawItem)) bf,
          some (getField (parseData (applyMapper mapper rawItem)) bf)⟩
    ∧ getField (processRecord mapper parseData bf rawItem).data bf = .jundefined
    ∧ ∀ k, ¬ k = bf →
        getField (processRecord mapper parseData bf rawItem).data k
          = getField (parseData (applyMapper mapper rawItem)) k := by
  have he := processRecord_eq_of_truthy mapper parseData bf rawItem h
  refine ⟨he, ?_, fun k hk => ?_⟩
  · rw [he]
    show getField (removeField (parseData (applyMapper mapper rawItem)) bf) bf = _
    rw [getField_removeField]
    simp
  · rw [he]
    show getField (removeField (parseData (applyMapper mapper rawItem)) bf) k = _
    rw [getField_removeField, if_neg hk]

/-- Witness for `processRecord_body_promotion`: bodyField `"content"` with
record `{Id: "1", content: "hello"}` (identity mapper and validator) yields
the entry `{id: "1", data: {Id: "1"}, body: "hello"}`. -/
theorem processRecord_body_promotion_witness :
    (getField ((fun x => x)
        (applyMapper none [("Id", JVal.jstr "1"), ("content", JVal.jstr "hello")]))
        "content").truthy = true
    ∧ processRecord none (fun x => x) "content"
        [("Id", JVal.jstr "1"), ("content", JVal.jstr "hello")]
      = ⟨"1", [("Id", JVal.jstr "1")], some (JVal.jstr "hello")⟩ := by
  refine ⟨by decide, ?_⟩
  have h := (processRecord_body_promotion none (fun x => x) "content"
      [("Id", JVal.jstr "1"), ("content", JVal.jstr "hello")] (by decide)).1
  exact h.trans (by decide)

/-- C9 counterexample: a response with an absent record list but
`isLastPage = false` does *not* stop pagination: `fetchAll` issues a second
request and returns that page's records (`[5]`), instead of stopping at the
empty response and returning the records accumulated so far (`[]`). -/
theorem fetchAll_emptyPage_counterexample :
    (fetchAll (α := Nat) none
        [.ok 200 none (some false), .ok 200 (some [5]) (some true)]
        0 [] 10 2000).records = [5]
    ∧ (fetchAll (α := Nat) none
        [.ok 200 none (some false), .ok 200 (some [5]) (some true)]
        0 [] 10 2000).reqs.length = 2 := by decide

/-- C9 amended: a response whose record list is absent or empty never
throws and contributes no records, but it is treated as a last page only
when `pageInfo.isLastPage` is truthy: with `isLastPage = true` the run stops
and returns the accumulated records; with `isLastPage` false or `pageInfo`
absent, pagination continues at the next offset. -/
theorem fetchAll_empty_list_behavior {α : Type} (lp : Option Nat)
    (rest : List (Response α)) (off : Nat) (acc : List α) (r d : Nat) :
    fetchAll lp (.ok 200 none (some true) :: rest) off acc r d
      = ⟨acc, [], [⟨off, r, d⟩]⟩
    ∧ fetchAll lp (.ok 200 (some []) (some true) :: rest) off acc r d
      = ⟨acc, [], [⟨off, r, d⟩]⟩
    ∧ (fetchAll lp (.ok 200 none (some false) :: rest) off acc r d).records
        = (fetchAll lp rest (off + jsLimit lp) acc r d).records
    ∧ (fetchAll lp (.ok 200 none none :: rest) off acc r d).records
        = (fetchAll lp rest (off + jsLimit lp) acc r d).records := by
  refine ⟨?_, ?_, ?_, ?_⟩
  · simpa using fetchAll_cons_ok_last lp 200 none rest off acc r d (by decide)
  · simpa using fetchAll_cons_ok_last lp 200 (some []) rest off acc r d (by decide)
  · rw [fetchAll_cons_ok_notLast lp 200 none (some false) rest off acc r d
      (by decide) (by decide)]
    simp
  · rw [fetchAll_cons_ok_notLast lp 200 none none rest off acc r d
      (by decide) (by decide)]
    simp

/-- C10: when a table spec does not declare a `bodyField`,
`nocodbCollections` defaults it to the literal `"content"`, so a record
whose validated data has a truthy `"content"` field has that field promoted
to the entry body and removed from its data even though the caller never
configured body promotion; body promotion is never fully disabled. -/
theorem nocodb_default_bodyField (t : TableOptions) (h : t.bodyField = none)
    (mapper : Option (JRecord → JRecord)) (parseData : JRecord → JRecord)
    (rawItem : JRecord)
    (ht : (getField (parseData (applyMapper mapper rawItem)) "content").truthy
        = true) :
    (nocodbTableDefaults t).bodyField = "content"
    ∧ (processRecord mapper parseData (nocodbTableDefaults t).bodyField
        rawItem).body
        = some (getField (parseData (applyMapper mapper rawItem)) "content")
    ∧ getField (processRecord mapper parseData
        (nocodbTableDefaults t).bodyField rawItem).data "content" = .jundefined := by
  have hb : (nocodbTableDefaults t).bodyField = "content" := by
    simp [nocodbTableDefaults, h]
  have he := processRecord_eq_of_truthy mapper parseData "content" rawItem ht
  refine ⟨hb, ?_, ?_⟩
  · rw [hb, he]
  · rw [hb, he]
    show getField (removeField (parseData (applyMapper mapper rawItem))
        "content") "content" = _
    rw [getField_removeField]
    simp

/-- Witness for `nocodb_default_bodyField`: all-absent table options and
the record `{content: "x"}`. -/
theorem nocodb_default_bodyField_witness :
    (⟨none, none, none, none⟩ : TableOptions).bodyField = none
    ∧ (getField ((fun x => x) (applyMapper none [("content", JVal.jstr "x")]))
        "content").truthy = true
    ∧ (nocodbTableDefaults ⟨none, none, none, none⟩).bodyField = "content"
    ∧ (processRecord none (fun x => x)
        (nocodbTableDefaults ⟨none, none, none, none⟩).bodyField
        [("content", JVal.jstr "x")]).body = some (JVal.jstr "x") := by
  refine ⟨rfl, by decide, ?_, ?_⟩
  · exact (nocodb_default_bodyField ⟨none, none, none, none⟩ rfl none
      (fun x => x) [("content", JVal.jstr "x")] (by decide)).1
  · exact ((nocodb_default_bodyField ⟨none, none, none, none⟩ rfl none
      (fun x => x) [("content", JVal.jstr "x")] (by decide)).2.1).trans
      (by decide)
